import Mathlib

/-!
# filelogging: a mutex-guarded append-only log writer

Shallow embedding of `src/filelogging.go` (package `filelogging`).

* A Go `string` is an immutable sequence of bytes; `len` is its byte count and
  `[]byte(s)` is the same sequence.  It is embedded as `List UInt8`.
* The `os` package (`os.OpenFile`, `(*os.File).Write`, `Sync`, `Close`) is an
  external collaborator.  Its behaviour is a parameter `FileOps σ ε` of every
  operation: `σ` is the state of the world reachable through `lf.file`, `ε` is
  the type of the error values the `os` package produces.
* `sync.Mutex` is a boolean (`true` = locked).  In a single thread of control
  `Lock` on a locked mutex never returns and `Unlock` on an unlocked mutex is a
  fatal runtime error; both are results of type `Fault`.
* Every effect on the mutex or on the file handle is appended to a ghost
  `trace`, in program order.
-/

namespace filelogging

/-! ## Go strings -/

/-- Go `string` / `[]byte`: a sequence of bytes. -/
abbrev GoString := List UInt8

/-- The bytes of a Go string literal (Go source text is UTF-8). -/
def lit (s : String) : GoString := s.data.flatMap String.utf8EncodeChar

/-! ## `LogSeverityLevel` (lines 8-18) -/

/-- Go `type LogSeverityLevel uint8`.  No arithmetic is performed on it, only
comparison with the three constants, so the carrier is `Nat`. -/
abbrev LogSeverityLevel := Nat

/-- Go `STATUS = iota`, the value zero. -/
def STATUS : LogSeverityLevel := 0
/-- Go `WARNING`, the value one. -/
def WARNING : LogSeverityLevel := 1
/-- Go `ERROR`, the value two. -/
def ERROR : LogSeverityLevel := 2

/-! ## Errors (lines 27-33) -/

/-- Go `error` values that the operations of `LogFile` can return: either a
value produced by the `os` package, or the package-private `logWriteError{}`. -/
inductive GoError (ε : Type) where
  | os (e : ε)
  | logWriteError
  deriving DecidableEq, Repr

/-- Go `func (lwe logWriteError) Error() string`. -/
def logWriteErrorText : GoString :=
  lit "The number of bytes written to the file does not match the message length"

/-! ## The `os` package as a parameter -/

/-- Flags of `os.OpenFile` used by the source. -/
inductive OpenFlag where
  | O_WRONLY | O_APPEND | O_CREATE
  deriving DecidableEq, Repr

/-- The four `os` entry points used by the source.  Each takes the state of
the world behind the handle and returns the new state with the Go results:
`Write` returns `(n int, err error)`, the others `err error` (`none` is `nil`). -/
structure FileOps (σ ε : Type) where
  OpenFile : σ → GoString → List OpenFlag → Nat → σ × Option ε
  Write : σ → GoString → σ × Int × Option ε
  Sync : σ → σ × Option ε
  Close : σ → σ × Option ε

/-! ## `LogFile` (lines 20-25) -/

/-- Effects on the mutex and on the `file` field, in program order. -/
inductive Event where
  | lock
  | unlock
  | openFile (filePath : GoString)
  | write (b : GoString)
  | sync
  | close
  deriving DecidableEq, Repr

/-- Go `type LogFile struct { file *os.File; mutex sync.Mutex }`, with the ghost
trace of the effects performed so far. -/
structure LogFile (σ : Type) where
  file : σ
  mutex : Bool
  trace : List Event

/-- Ways a single thread of control fails to return from a mutex call. -/
inductive Fault where
  | deadlock
  | unlockOfUnlockedMutex
  deriving DecidableEq, Repr

/-- Go `lf.mutex.Lock()`. -/
def Lock {σ : Type} (lf : LogFile σ) : Except Fault (LogFile σ) :=
  if lf.mutex then .error .deadlock
  else .ok { lf with mutex := true, trace := lf.trace ++ [Event.lock] }

/-- Go `lf.mutex.Unlock()`. -/
def Unlock {σ : Type} (lf : LogFile σ) : Except Fault (LogFile σ) :=
  if lf.mutex then .ok { lf with mutex := false, trace := lf.trace ++ [Event.unlock] }
  else .error .unlockOfUnlockedMutex

/-- Go `lf.file.Write(b)`. -/
def fileWrite {σ ε : Type} (ops : FileOps σ ε) (lf : LogFile σ) (b : GoString) :
    LogFile σ × Int × Option ε :=
  let r := ops.Write lf.file b
  ({ lf with file := r.1, trace := lf.trace ++ [Event.write b] }, r.2.1, r.2.2)

/-- Go `lf.file.Sync()`. -/
def fileSync {σ ε : Type} (ops : FileOps σ ε) (lf : LogFile σ) : LogFile σ × Option ε :=
  let r := ops.Sync lf.file
  ({ lf with file := r.1, trace := lf.trace ++ [Event.sync] }, r.2)

/-- Go `lf.file.Close()`. -/
def fileClose {σ ε : Type} (ops : FileOps σ ε) (lf : LogFile σ) : LogFile σ × Option ε :=
  let r := ops.Close lf.file
  ({ lf with file := r.1, trace := lf.trace ++ [Event.close] }, r.2)

/-! ## `OpenLogFile` (lines 38-42) -/

/-- Go `func (lf *LogFile) OpenLogFile(filePath string) error`. -/
def OpenLogFile {σ ε : Type} (ops : FileOps σ ε) (lf : LogFile σ) (filePath : GoString) :
    Except Fault (LogFile σ × Option (GoError ε)) :=
  let r := ops.OpenFile lf.file filePath
    [OpenFlag.O_WRONLY, OpenFlag.O_APPEND, OpenFlag.O_CREATE] 0o755
  .ok ({ lf with file := r.1, trace := lf.trace ++ [Event.openFile filePath] }, r.2.map GoError.os)

/-! ## `Log` (lines 45-82) -/

/-- Lines 50-58 of `Log`: the `switch` on the severity followed by
`message += "\n"`. -/
def formatMessage (message : GoString) (logLevel : LogSeverityLevel) : GoString :=
  let message :=
    if logLevel = WARNING then lit "WARNING: " ++ message
    else if logLevel = ERROR then lit "ERROR: " ++ message
    else message
  message ++ lit "\n"

/-- Go `func (lf *LogFile) Log(message string, logLevel LogSeverityLevel) error`. -/
def Log {σ ε : Type} (ops : FileOps σ ε) (lf : LogFile σ) (message : GoString)
    (logLevel : LogSeverityLevel) : Except Fault (LogFile σ × Option (GoError ε)) := do
  let message := formatMessage message logLevel
  let lf ← Lock lf
  let (lf, count, err) := fileWrite ops lf message
  match err with
  | some e =>
    let lf ← Unlock lf
    return (lf, some (GoError.os e))
  | none =>
    if count < (message.length : Int) then
      let lf ← Unlock lf
      return (lf, some GoError.logWriteError)
    else
      let (lf, err) := fileSync ops lf
      let lf ← Unlock lf
      match err with
      | some e => return (lf, some (GoError.os e))
      | none => return (lf, none)

/-! ## `CloseLogFile` (lines 86-91) -/

/-- Go `func (lf *LogFile) CloseLogFile() error`. -/
def CloseLogFile {σ ε : Type} (ops : FileOps σ ε) (lf : LogFile σ) :
    Except Fault (LogFile σ × Option (GoError ε)) := do
  let lf ← Lock lf
  let (lf, err) := fileClose ops lf
  let lf ← Unlock lf
  return (lf, err.map GoError.os)

/-! ## Sequences of calls -/

/-- The calls `Log(m1, s1)`, ..., `Log(mn, sn)` made one after another on the
same `LogFile`; the result lists the values returned, in call order. -/
def LogAll {σ ε : Type} (ops : FileOps σ ε) :
    LogFile σ → List (GoString × LogSeverityLevel) →
      Except Fault (LogFile σ × List (Option (GoError ε)))
  | lf, [] => .ok (lf, [])
  | lf, (m, s) :: rest =>
    match Log ops lf m s with
    | .error f => .error f
    | .ok (lf1, r) =>
      match LogAll ops lf1 rest with
      | .error f => .error f
      | .ok (lf2, rs) => .ok (lf2, r :: rs)

/-! ## Observations on traces -/

/-- The byte sequences handed to `Write`, in order. -/
def writesOf : List Event → List GoString
  | [] => []
  | Event.write b :: t => b :: writesOf t
  | _ :: t => writesOf t

/-- Whether every access to the `file` field in the trace happens while the
mutex is held; the first argument tells whether it is held at the start. -/
def guardedFrom : Bool → List Event → Bool
  | _, [] => true
  | _, Event.lock :: t => guardedFrom true t
  | _, Event.unlock :: t => guardedFrom false t
  | held, _ :: t => held && guardedFrom held t

/-! ## A concrete file for evaluation

One destination file behind one handle, following the documentation of package
`os`: a handle is nil, open or closed; with `O_APPEND` every `Write` on an open
handle appends at the end of the file; every method of a nil handle returns
`ErrInvalid` and every method of a closed handle returns `ErrClosed`. -/

/-- State of the `*os.File` stored in `lf.file`. -/
inductive Handle where
  | nil | opened | closed
  deriving DecidableEq, Repr

/-- Errors of the concrete file. -/
inductive SimError where
  | ErrInvalid | ErrClosed | EIO
  deriving DecidableEq, Repr

/-- The handle and the bytes of the destination file. -/
structure SimFile where
  handle : Handle
  content : GoString
  deriving DecidableEq, Repr

/-- Error returned by a method of a handle that is not open. -/
def handleError : Handle → Option SimError
  | Handle.nil => some SimError.ErrInvalid
  | Handle.opened => none
  | Handle.closed => some SimError.ErrClosed

/-- A file whose `Write` fails with `wErr` when that is an error, otherwise
appends all but the last `drop` bytes and reports their number, and whose `Sync`
returns `sErr`.  `faultOps none 0 none` is a file on which nothing fails. -/
def faultOps (wErr : Option SimError) (drop : Nat) (sErr : Option SimError) :
    FileOps SimFile SimError where
  OpenFile s _ _ _ := ({ s with handle := Handle.opened }, none)
  Write s b :=
    match handleError s.handle with
    | some e => (s, 0, some e)
    | none =>
      match wErr with
      | some e => (s, 0, some e)
      | none =>
        let written := b.take (b.length - drop)
        ({ s with content := s.content ++ written }, (written.length : Int), none)
  Sync s :=
    match handleError s.handle with
    | some e => (s, some e)
    | none => (s, sErr)
  Close s :=
    match handleError s.handle with
    | some e => (s, some e)
    | none => ({ s with handle := Handle.closed }, none)

/-- The file on which nothing fails. -/
def simOps : FileOps SimFile SimError := faultOps none 0 none

/-- A `LogFile` value as declared by `var lf LogFile`: nil handle, unlocked
mutex, over a destination that holds `c`. -/
def newLogFile (c : GoString) : LogFile SimFile :=
  { file := { handle := Handle.nil, content := c }, mutex := false, trace := [] }

/-- A `LogFile` after a successful `OpenLogFile`, with an empty trace. -/
def openedLogFile (c : GoString) : LogFile SimFile :=
  { file := { handle := Handle.opened, content := c }, mutex := false, trace := [] }

/-- The `LogFile` obtained from `var lf LogFile` by `lf.OpenLogFile("test.log")`
when the path does not exist yet. -/
def testLog : LogFile SimFile :=
  { file := { handle := Handle.opened, content := [] }, mutex := false,
    trace := [Event.openFile (lit "test.log")] }

/-- The formatted lines of a sequence of calls, concatenated in call order. -/
def linesOf : List (GoString × LogSeverityLevel) → GoString
  | [] => []
  | (m, s) :: rest => formatMessage m s ++ linesOf rest

/-- The `LogFile` left by a successful `CloseLogFile` on an open `LogFile` whose
file holds the line "hello". -/
def closedLog : LogFile SimFile :=
  { file := { handle := Handle.closed, content := lit "hello\n" }, mutex := false,
    trace := [Event.lock, Event.close, Event.unlock] }

/-! ## The result of `Log` in closed form -/

/-- The result of `Log` on an unlocked mutex, by cases on what `Write` and `Sync`
return. -/
def logResult {σ ε : Type} (ops : FileOps σ ε) (lf : LogFile σ) (message : GoString)
    (logLevel : LogSeverityLevel) : LogFile σ × Option (GoError ε) :=
  let f := formatMessage message logLevel
  let w := ops.Write lf.file f
  match w.2.2 with
  | some e =>
    ({ file := w.1, mutex := false,
       trace := lf.trace ++ [Event.lock, Event.write f, Event.unlock] }, some (GoError.os e))
  | none =>
    if w.2.1 < (f.length : Int) then
      ({ file := w.1, mutex := false,
         trace := lf.trace ++ [Event.lock, Event.write f, Event.unlock] },
        some GoError.logWriteError)
    else
      let y := ops.Sync w.1
      ({ file := y.1, mutex := false,
         trace := lf.trace ++ [Event.lock, Event.write f, Event.sync, Event.unlock] },
        y.2.map GoError.os)

/-! ## Concurrent callers

Several goroutines call `Log` on one open `LogFile`.  Each caller is a small
state machine over the statements of `Log`; a schedule picks which caller moves
next.  The destination is the file on which nothing fails, and a `Write` of `n`
bytes is `n` separate one-byte appends followed by its return, so that callers
inside `Write` at the same time would mix their bytes. -/

/-- Control point of one caller of `Log`, after the local formatting of lines
51-58: before `Lock` (line 60); inside `Write` with `k` bytes appended (line 61);
before `Sync` (line 75); before the `Unlock` of lines 65, 68 or 76 with the
value that will be returned; returned; stopped by the fatal error of unlocking
an unlocked mutex. -/
inductive Pc where
  | atLock
  | inWrite (k : Nat)
  | atSync
  | atUnlock (r : Option (GoError SimError))
  | returned (r : Option (GoError SimError))
  | fatal
  deriving DecidableEq, Repr

/-- The shared `LogFile` and the control point of every caller. -/
structure Sys where
  file : SimFile
  mutex : Bool
  pc : Nat → Pc

/-- One move of a caller whose formatted message is `message`; `none` when the
caller cannot move (it waits in `Lock`, or it has returned or stopped). -/
def stepLog (message : GoString) (file : SimFile) (mutex : Bool) :
    Pc → Option (SimFile × Bool × Pc)
  | Pc.atLock => if mutex then none else some (file, true, Pc.inWrite 0)
  | Pc.inWrite k =>
    match handleError file.handle with
    | some e => some (file, mutex, Pc.atUnlock (some (GoError.os e)))
    | none =>
      match message[k]? with
      | some b => some ({ file with content := file.content ++ [b] }, mutex, Pc.inWrite (k + 1))
      | none =>
        if (k : Int) < (message.length : Int) then
          some (file, mutex, Pc.atUnlock (some GoError.logWriteError))
        else some (file, mutex, Pc.atSync)
  | Pc.atSync =>
    let y := simOps.Sync file
    some (y.1, mutex, Pc.atUnlock (y.2.map GoError.os))
  | Pc.atUnlock r => if mutex then some (file, false, Pc.returned r) else some (file, mutex, Pc.fatal)
  | Pc.returned _ => none
  | Pc.fatal => none

/-- The formatted message of caller `i`. -/
def lineAt (calls : List (GoString × LogSeverityLevel)) (i : Nat) : GoString :=
  match calls[i]? with
  | some (m, s) => formatMessage m s
  | none => []

/-- One move of caller `i`. -/
def step (calls : List (GoString × LogSeverityLevel)) (i : Nat) (g : Sys) : Option Sys :=
  if i < calls.length then
    match stepLog (lineAt calls i) g.file g.mutex (g.pc i) with
    | some (f, mu, p) => some { file := f, mutex := mu, pc := Function.update g.pc i p }
    | none => none
  else none

/-- The state after a schedule; a scheduled caller that cannot move is skipped. -/
def run (calls : List (GoString × LogSeverityLevel)) : List Nat → Sys → Sys
  | [], g => g
  | i :: rest, g => run calls rest ((step calls i g).getD g)

/-- All callers are about to call `Lock`; the handle is open, the mutex unlocked
and the file holds `c`. -/
def initSys (c : GoString) : Sys :=
  { file := { handle := Handle.opened, content := c }, mutex := false, pc := fun _ => Pc.atLock }

/-- Whether a caller has returned. -/
def Pc.isReturned : Pc → Bool
  | Pc.returned _ => true
  | _ => false

/-- Whether every call has returned. -/
def allReturned (calls : List (GoString × LogSeverityLevel)) (g : Sys) : Bool :=
  (List.range calls.length).all (fun i => (g.pc i).isReturned)

/-- The formatted lines of the callers listed in `ord`, concatenated. -/
def linesAt (calls : List (GoString × LogSeverityLevel)) : List Nat → GoString
  | [] => []
  | i :: rest => lineAt calls i ++ linesAt calls rest

/-- Whether a caller has completed its `Write` in full without error. -/
def Pc.wrote : Pc → Bool
  | Pc.atSync => true
  | Pc.atUnlock none => true
  | Pc.returned none => true
  | _ => false

/-- Whether a caller is outside the section between `Lock` and `Unlock`, not
having failed. -/
def Pc.outside : Pc → Bool
  | Pc.atLock => true
  | Pc.returned none => true
  | _ => false

/-- Invariant of the concurrent system started on content `c`: the handle is
open; `ord` lists, without repetition, the callers whose `Write` is complete;
when the mutex is unlocked every caller is outside and the file holds `c` and
the lines of `ord`; when it is locked exactly one caller `i` is inside, and the
file holds in addition the bytes that `i` has appended so far. -/
def Inv (calls : List (GoString × LogSeverityLevel)) (c : GoString) (g : Sys) : Prop :=
  g.file.handle = Handle.opened ∧
  ∃ ord : List Nat, ord.Nodup ∧
    (∀ j, j ∈ ord ↔ j < calls.length ∧ (g.pc j).wrote = true) ∧
    ((g.mutex = false ∧ (∀ j, j < calls.length → (g.pc j).outside = true) ∧
        g.file.content = c ++ linesAt calls ord) ∨
     (g.mutex = true ∧ ∃ i, i < calls.length ∧
        (∀ j, j < calls.length → j ≠ i → (g.pc j).outside = true) ∧
        ((∃ k, g.pc i = Pc.inWrite k ∧ k ≤ (lineAt calls i).length ∧
            g.file.content = c ++ linesAt calls ord ++ (lineAt calls i).take k) ∨
         ((g.pc i = Pc.atSync ∨ g.pc i = Pc.atUnlock none) ∧
            g.file.content = c ++ linesAt calls ord))))

/-! ### A bound on the remaining moves -/

/-- Upper bound on the moves a caller still makes, for a formatted message of
`len` bytes. -/
def Pc.remaining (len : Nat) : Pc → Nat
  | Pc.atLock => len + 4
  | Pc.inWrite k => (len - k) + 3
  | Pc.atSync => 2
  | Pc.atUnlock _ => 1
  | Pc.returned _ => 0
  | Pc.fatal => 0

/-- Upper bound on the moves still made by all callers together. -/
def remaining (calls : List (GoString × LogSeverityLevel)) (g : Sys) : Nat :=
  Finset.sum (Finset.range calls.length) (fun i => (g.pc i).remaining (lineAt calls i).length)

/-! # Theorems -/

/-! ## Unfolding lemmas -/

theorem formatMessage_STATUS (m : GoString) :
    formatMessage m STATUS = m ++ lit "\n" := by
  simp [formatMessage, STATUS, WARNING, ERROR]

theorem formatMessage_WARNING (m : GoString) :
    formatMessage m WARNING = lit "WARNING: " ++ m ++ lit "\n" := by
  simp [formatMessage, WARNING]

theorem formatMessage_ERROR (m : GoString) :
    formatMessage m ERROR = lit "ERROR: " ++ m ++ lit "\n" := by
  simp [formatMessage, WARNING, ERROR]

theorem formatMessage_length (m : GoString) (s : LogSeverityLevel) :
    (formatMessage m s).length =
      (if s = WARNING then 9 else if s = ERROR then 7 else 0) + m.length + 1 := by
  have h9 : (lit "WARNING: ").length = 9 := by decide
  have h7 : (lit "ERROR: ").length = 7 := by decide
  have h1 : (lit "\n").length = 1 := by decide
  unfold formatMessage
  by_cases hw : s = WARNING
  · simp [hw, h9, h1]
    omega
  · by_cases he : s = ERROR
    · subst he
      have hne : ¬ (ERROR = WARNING) := by decide
      simp [hne, h7, h1]
      omega
    · simp [hw, he, h1]

theorem Log_unlocked {σ ε : Type} (ops : FileOps σ ε) (lf : LogFile σ) (m : GoString)
    (s : LogSeverityLevel) (h : lf.mutex = false) :
    Log ops lf m s = .ok (logResult ops lf m s) := by
  unfold Log logResult
  simp only [Lock, h, fileWrite, fileSync, Unlock, bind, Except.bind, pure, Except.pure]
  simp only [Bool.false_eq_true, if_false]
  rcases hw : ops.Write lf.file (formatMessage m s) with ⟨f1, n, e⟩
  cases e with
  | some e => simp
  | none =>
    by_cases hn : n < ((formatMessage m s).length : Int)
    · simp [hn]
    · rcases hy : ops.Sync f1 with ⟨f2, e2⟩
      cases e2 <;> simp [hn, hy]

theorem Log_locked {σ ε : Type} (ops : FileOps σ ε) (lf : LogFile σ) (m : GoString)
    (s : LogSeverityLevel) (h : lf.mutex = true) :
    Log ops lf m s = .error Fault.deadlock := by
  unfold Log
  simp [Lock, h, bind, Except.bind]

theorem CloseLogFile_unlocked {σ ε : Type} (ops : FileOps σ ε) (lf : LogFile σ)
    (h : lf.mutex = false) :
    CloseLogFile ops lf =
      .ok ({ file := (ops.Close lf.file).1, mutex := false,
             trace := lf.trace ++ [Event.lock, Event.close, Event.unlock] },
           (ops.Close lf.file).2.map GoError.os) := by
  unfold CloseLogFile
  simp [Lock, h, fileClose, Unlock, bind, Except.bind, pure, Except.pure]

theorem writesOf_append (a b : List Event) : writesOf (a ++ b) = writesOf a ++ writesOf b := by
  induction a with
  | nil => rfl
  | cons e t ih => cases e <;> simp [writesOf, ih]

/-! ## Formatting and the bytes written -/

/-- C1: on an unlocked mutex, `Log` hands exactly one byte sequence to the
underlying `Write`: the message followed by a newline for STATUS, preceded by
"WARNING: " for WARNING and by "ERROR: " for ERROR; the message is any byte
sequence and appears unchanged. -/
theorem C1_Log_writes_formatted_bytes {σ ε : Type} (ops : FileOps σ ε) (lf : LogFile σ)
    (hm : lf.mutex = false) (m : GoString) :
    (∃ st r, Log ops lf m STATUS = .ok (st, r) ∧
        writesOf st.trace = writesOf lf.trace ++ [m ++ lit "\n"]) ∧
    (∃ st r, Log ops lf m WARNING = .ok (st, r) ∧
        writesOf st.trace = writesOf lf.trace ++ [lit "WARNING: " ++ m ++ lit "\n"]) ∧
    (∃ st r, Log ops lf m ERROR = .ok (st, r) ∧
        writesOf st.trace = writesOf lf.trace ++ [lit "ERROR: " ++ m ++ lit "\n"]) := by
  have key : ∀ s, writesOf (logResult ops lf m s).1.trace =
      writesOf lf.trace ++ [formatMessage m s] := by
    intro s
    unfold logResult
    simp only []
    split
    · simp [writesOf_append, writesOf]
    · split <;> simp [writesOf_append, writesOf]
  refine ⟨⟨(logResult ops lf m STATUS).1, (logResult ops lf m STATUS).2,
      Log_unlocked ops lf m STATUS hm, ?_⟩,
    ⟨(logResult ops lf m WARNING).1, (logResult ops lf m WARNING).2,
      Log_unlocked ops lf m WARNING hm, ?_⟩,
    ⟨(logResult ops lf m ERROR).1, (logResult ops lf m ERROR).2,
      Log_unlocked ops lf m ERROR hm, ?_⟩⟩
  · rw [key, formatMessage_STATUS]
  · rw [key, formatMessage_WARNING]
  · rw [key, formatMessage_ERROR]

/-- C1 at the empty message, on the file on which nothing fails. -/
theorem C1_witness :
    (openedLogFile []).mutex = false ∧
    ((∃ st r, Log simOps (openedLogFile []) [] STATUS = .ok (st, r) ∧
        writesOf st.trace = writesOf (openedLogFile []).trace ++ [[] ++ lit "\n"]) ∧
    (∃ st r, Log simOps (openedLogFile []) [] WARNING = .ok (st, r) ∧
        writesOf st.trace =
          writesOf (openedLogFile []).trace ++ [lit "WARNING: " ++ [] ++ lit "\n"]) ∧
    (∃ st r, Log simOps (openedLogFile []) [] ERROR = .ok (st, r) ∧
        writesOf st.trace =
          writesOf (openedLogFile []).trace ++ [lit "ERROR: " ++ [] ++ lit "\n"])) :=
  ⟨rfl, C1_Log_writes_formatted_bytes simOps (openedLogFile []) rfl []⟩

/-! ## The value returned by `Log` -/

/-- C2: on an unlocked mutex, `Log` returns nil exactly when `Write` returned no
error with a count not less than the length of the formatted message, and the
`Sync` that follows returned no error. -/
theorem C2_Log_nil_iff {σ ε : Type} (ops : FileOps σ ε) (lf : LogFile σ)
    (hm : lf.mutex = false) (m : GoString) (s : LogSeverityLevel) :
    ∃ st r, Log ops lf m s = .ok (st, r) ∧
      (r = none ↔
        ((ops.Write lf.file (formatMessage m s)).2.2 = none ∧
         ((formatMessage m s).length : Int) ≤ (ops.Write lf.file (formatMessage m s)).2.1 ∧
         (ops.Sync (ops.Write lf.file (formatMessage m s)).1).2 = none)) := by
  refine ⟨(logResult ops lf m s).1, (logResult ops lf m s).2, Log_unlocked ops lf m s hm, ?_⟩
  unfold logResult
  simp only []
  split
  · rename_i e he
    simp [he]
  · rename_i he
    split
    · rename_i hn
      simp [he, not_le.mpr hn]
    · rename_i hn
      simp [he, not_lt.mp hn]

/-- C2 at the message "hello" with STATUS, on the file on which nothing fails. -/
theorem C2_witness :
    (openedLogFile []).mutex = false ∧
    ∃ st r, Log simOps (openedLogFile []) (lit "hello") STATUS = .ok (st, r) ∧
      (r = none ↔
        ((simOps.Write (openedLogFile []).file (formatMessage (lit "hello") STATUS)).2.2 = none ∧
         ((formatMessage (lit "hello") STATUS).length : Int) ≤
           (simOps.Write (openedLogFile []).file (formatMessage (lit "hello") STATUS)).2.1 ∧
         (simOps.Sync
           (simOps.Write (openedLogFile []).file (formatMessage (lit "hello") STATUS)).1).2
             = none)) :=
  ⟨rfl, C2_Log_nil_iff simOps (openedLogFile []) rfl (lit "hello") STATUS⟩

/-- C3: on an unlocked mutex, when `Write` returns no error and a count below
the length of the formatted message, `Log` returns `logWriteError`, which differs
from every error of the `os` package, and the effects are lock, write, unlock:
`Sync` is not called. -/
theorem C3_short_write {σ ε : Type} (ops : FileOps σ ε) (lf : LogFile σ)
    (hm : lf.mutex = false) (m : GoString) (s : LogSeverityLevel)
    (hw : (ops.Write lf.file (formatMessage m s)).2.2 = none)
    (hn : (ops.Write lf.file (formatMessage m s)).2.1 < ((formatMessage m s).length : Int)) :
    (∃ st, Log ops lf m s = .ok (st, some GoError.logWriteError) ∧
      st.file = (ops.Write lf.file (formatMessage m s)).1 ∧
      st.trace = lf.trace ++ [Event.lock, Event.write (formatMessage m s), Event.unlock]) ∧
    (∀ e : ε, (GoError.logWriteError : GoError ε) ≠ GoError.os e) ∧
    (formatMessage m s).length =
      (if s = WARNING then 9 else if s = ERROR then 7 else 0) + m.length + 1 := by
  refine ⟨⟨(logResult ops lf m s).1, ?_, ?_, ?_⟩, (fun e h => by cases h),
    formatMessage_length m s⟩
  · rw [Log_unlocked ops lf m s hm]
    unfold logResult
    simp [hw, hn]
  · unfold logResult
    simp [hw, hn]
  · unfold logResult
    simp [hw, hn]

/-- C3 on a file that drops the last byte of each write: the count reported for
"hello" is 5, the length of the text the caller passed, and the call still fails. -/
theorem C3_witness :
    ((faultOps none 1 none).Write (openedLogFile []).file
        (formatMessage (lit "hello") STATUS)).2.1 = ((lit "hello").length : Int) ∧
    ((∃ st, Log (faultOps none 1 none) (openedLogFile []) (lit "hello") STATUS
          = .ok (st, some GoError.logWriteError) ∧
      st.file = ((faultOps none 1 none).Write (openedLogFile []).file
        (formatMessage (lit "hello") STATUS)).1 ∧
      st.trace = (openedLogFile []).trace ++
        [Event.lock, Event.write (formatMessage (lit "hello") STATUS), Event.unlock]) ∧
    (∀ e : SimError, (GoError.logWriteError : GoError SimError) ≠ GoError.os e) ∧
    (formatMessage (lit "hello") STATUS).length =
      (if STATUS = WARNING then 9 else if STATUS = ERROR then 7 else 0) +
        (lit "hello").length + 1) :=
  ⟨by decide,
   C3_short_write (faultOps none 1 none) (openedLogFile []) rfl (lit "hello") STATUS
     (by decide) (by decide)⟩

/-- C4: on an unlocked mutex, an error returned by `Write` is returned by `Log`
as it is, whatever the count, after the effects lock, write, unlock (no `Sync`,
no second `Write`); and when `Write` succeeds in full an error returned by `Sync`
is returned by `Log` as it is, after the effects lock, write, sync, unlock. -/
theorem C4_os_errors_propagate {σ ε : Type} (ops : FileOps σ ε) (lf : LogFile σ)
    (hm : lf.mutex = false) (m : GoString) (s : LogSeverityLevel) :
    (∀ e, (ops.Write lf.file (formatMessage m s)).2.2 = some e →
      ∃ st, Log ops lf m s = .ok (st, some (GoError.os e)) ∧
        st.file = (ops.Write lf.file (formatMessage m s)).1 ∧
        st.trace = lf.trace ++ [Event.lock, Event.write (formatMessage m s), Event.unlock]) ∧
    (∀ e, (ops.Write lf.file (formatMessage m s)).2.2 = none →
      ((formatMessage m s).length : Int) ≤ (ops.Write lf.file (formatMessage m s)).2.1 →
      (ops.Sync (ops.Write lf.file (formatMessage m s)).1).2 = some e →
      ∃ st, Log ops lf m s = .ok (st, some (GoError.os e)) ∧
        st.file = (ops.Sync (ops.Write lf.file (formatMessage m s)).1).1 ∧
        st.trace = lf.trace ++
          [Event.lock, Event.write (formatMessage m s), Event.sync, Event.unlock]) := by
  constructor
  · intro e he
    refine ⟨(logResult ops lf m s).1, ?_, ?_, ?_⟩
    · rw [Log_unlocked ops lf m s hm]
      unfold logResult
      simp [he]
    · unfold logResult
      simp [he]
    · unfold logResult
      simp [he]
  · intro e hw hn hy
    refine ⟨(logResult ops lf m s).1, ?_, ?_, ?_⟩
    · rw [Log_unlocked ops lf m s hm]
      unfold logResult
      simp [hw, not_lt.mpr hn, hy]
    · unfold logResult
      simp [hw, not_lt.mpr hn]
    · unfold logResult
      simp [hw, not_lt.mpr hn]

/-- C4 on a file whose `Write` fails and on a file whose `Sync` fails. -/
theorem C4_witness :
    (∃ st, Log (faultOps (some SimError.EIO) 0 none) (openedLogFile []) (lit "bad") ERROR
        = .ok (st, some (GoError.os SimError.EIO)) ∧
      st.file = ((faultOps (some SimError.EIO) 0 none).Write (openedLogFile []).file
        (formatMessage (lit "bad") ERROR)).1 ∧
      st.trace = (openedLogFile []).trace ++
        [Event.lock, Event.write (formatMessage (lit "bad") ERROR), Event.unlock]) ∧
    (∃ st, Log (faultOps none 0 (some SimError.EIO)) (openedLogFile []) (lit "bad") ERROR
        = .ok (st, some (GoError.os SimError.EIO)) ∧
      st.file = ((faultOps none 0 (some SimError.EIO)).Sync
        ((faultOps none 0 (some SimError.EIO)).Write (openedLogFile []).file
          (formatMessage (lit "bad") ERROR)).1).1 ∧
      st.trace = (openedLogFile []).trace ++
        [Event.lock, Event.write (formatMessage (lit "bad") ERROR), Event.sync, Event.unlock]) :=
  ⟨(C4_os_errors_propagate (faultOps (some SimError.EIO) 0 none) (openedLogFile []) rfl
      (lit "bad") ERROR).1 SimError.EIO (by decide),
   (C4_os_errors_propagate (faultOps none 0 (some SimError.EIO)) (openedLogFile []) rfl
      (lit "bad") ERROR).2 SimError.EIO (by decide) (by decide) (by decide)⟩

/-! ## Locking discipline of one call -/

/-- C6: on an unlocked mutex, the effects of `Log` are one lock, the write, a
sync exactly when the write returned no error and a full count, and one unlock, in
this order; every file access happens while the mutex is held and the mutex is
unlocked on return.  The effects of `CloseLogFile` are lock, close, unlock. -/
theorem C6_lock_discipline {σ ε : Type} (ops : FileOps σ ε) (lf : LogFile σ)
    (hm : lf.mutex = false) (m : GoString) (s : LogSeverityLevel) :
    (∃ st r evs, Log ops lf m s = .ok (st, r) ∧ st.mutex = false ∧
      st.trace = lf.trace ++ evs ∧
      evs = [Event.lock, Event.write (formatMessage m s)] ++
        (if (ops.Write lf.file (formatMessage m s)).2.2.isNone ∧
            ((formatMessage m s).length : Int) ≤ (ops.Write lf.file (formatMessage m s)).2.1
          then [Event.sync] else []) ++ [Event.unlock] ∧
      guardedFrom false evs = true) ∧
    (∃ st r, CloseLogFile ops lf = .ok (st, r) ∧ st.mutex = false ∧
      st.trace = lf.trace ++ [Event.lock, Event.close, Event.unlock] ∧
      guardedFrom false [Event.lock, Event.close, Event.unlock] = true) := by
  constructor
  · refine ⟨(logResult ops lf m s).1, (logResult ops lf m s).2, _,
      Log_unlocked ops lf m s hm, ?_, ?_, rfl, ?_⟩
    · unfold logResult
      simp only []
      split
      · rfl
      · split <;> rfl
    · unfold logResult
      simp only []
      split
      · rename_i e he
        simp [he]
      · rename_i he
        split
        · rename_i hn
          simp [he, not_le.mpr hn]
        · rename_i hn
          simp [he, not_lt.mp hn]
    · split <;> rfl
  · exact ⟨_, _, CloseLogFile_unlocked ops lf hm, rfl, rfl, rfl⟩

/-- C6 at the message "oops" with WARNING, on the file on which nothing fails. -/
theorem C6_witness :
    (∃ st r evs, Log simOps (openedLogFile []) (lit "oops") WARNING = .ok (st, r) ∧
      st.mutex = false ∧ st.trace = (openedLogFile []).trace ++ evs ∧
      evs = [Event.lock, Event.write (formatMessage (lit "oops") WARNING)] ++
        (if (simOps.Write (openedLogFile []).file
              (formatMessage (lit "oops") WARNING)).2.2.isNone ∧
            ((formatMessage (lit "oops") WARNING).length : Int) ≤
              (simOps.Write (openedLogFile []).file (formatMessage (lit "oops") WARNING)).2.1
          then [Event.sync] else []) ++ [Event.unlock] ∧
      guardedFrom false evs = true) ∧
    (∃ st r, CloseLogFile simOps (openedLogFile []) = .ok (st, r) ∧ st.mutex = false ∧
      st.trace = (openedLogFile []).trace ++ [Event.lock, Event.close, Event.unlock] ∧
      guardedFrom false [Event.lock, Event.close, Event.unlock] = true) :=
  C6_lock_discipline simOps (openedLogFile []) rfl (lit "oops") WARNING

/-! ## Formatting as a function -/

/-- C10: for each severity the formatting of `Log` is injective in the message,
but it is not injective on pairs of message and severity: "WARNING: x" logged as
STATUS and "x" logged as WARNING give the same line. -/
theorem C10_format_injectivity :
    (∀ s : LogSeverityLevel, Function.Injective (fun m => formatMessage m s)) ∧
    (formatMessage (lit "WARNING: x") STATUS = formatMessage (lit "x") WARNING ∧
      ((lit "WARNING: x", STATUS) : GoString × LogSeverityLevel) ≠ (lit "x", WARNING)) ∧
    ¬ Function.Injective (fun p : GoString × LogSeverityLevel => formatMessage p.1 p.2) := by
  refine ⟨?_, ⟨by decide, by decide⟩, ?_⟩
  · intro s m1 m2 h
    simp only [formatMessage] at h
    have h1 := List.append_cancel_right h
    by_cases hw : s = WARNING
    · simpa [hw] using h1
    · by_cases he : s = ERROR
      · subst he
        have hne : ¬ (ERROR = WARNING) := by decide
        simpa [hne] using h1
      · simpa [hw, he] using h1
  · intro hinj
    have h : ((lit "WARNING: x", STATUS) : GoString × LogSeverityLevel) = (lit "x", WARNING) :=
      hinj (by decide)
    exact absurd h (by decide)

/-! ## Sequences of calls on a file that does not fail -/

theorem logResult_of_success {σ ε : Type} (ops : FileOps σ ε) (content : σ → GoString)
    (isOpen : σ → Prop)
    (hWrite : ∀ x b, isOpen x → (ops.Write x b).2.2 = none ∧
      (b.length : Int) ≤ (ops.Write x b).2.1 ∧
      content (ops.Write x b).1 = content x ++ b ∧ isOpen (ops.Write x b).1)
    (hSync : ∀ x, isOpen x → (ops.Sync x).2 = none ∧
      content (ops.Sync x).1 = content x ∧ isOpen (ops.Sync x).1)
    (lf : LogFile σ) (ho : isOpen lf.file) (m : GoString) (s : LogSeverityLevel) :
    (logResult ops lf m s).2 = none ∧ (logResult ops lf m s).1.mutex = false ∧
      content (logResult ops lf m s).1.file = content lf.file ++ formatMessage m s ∧
      isOpen (logResult ops lf m s).1.file := by
  obtain ⟨w1, w2, w3, w4⟩ := hWrite lf.file (formatMessage m s) ho
  obtain ⟨y1, y2, y3⟩ := hSync _ w4
  unfold logResult
  simp only [w1, not_lt.mpr w2, if_false, y1, Option.map_none']
  exact ⟨trivial, trivial, by rw [y2, w3], y3⟩

theorem LogAll_of_success {σ ε : Type} (ops : FileOps σ ε) (content : σ → GoString)
    (isOpen : σ → Prop)
    (hWrite : ∀ x b, isOpen x → (ops.Write x b).2.2 = none ∧
      (b.length : Int) ≤ (ops.Write x b).2.1 ∧
      content (ops.Write x b).1 = content x ++ b ∧ isOpen (ops.Write x b).1)
    (hSync : ∀ x, isOpen x → (ops.Sync x).2 = none ∧
      content (ops.Sync x).1 = content x ∧ isOpen (ops.Sync x).1)
    (calls : List (GoString × LogSeverityLevel)) :
    ∀ lf : LogFile σ, lf.mutex = false → isOpen lf.file →
      ∃ st rs, LogAll ops lf calls = .ok (st, rs) ∧
        rs = List.replicate calls.length none ∧
        content st.file = content lf.file ++ linesOf calls := by
  induction calls with
  | nil =>
    intro lf _ _
    exact ⟨lf, [], rfl, rfl, by simp [linesOf]⟩
  | cons c rest ih =>
    intro lf hm ho
    obtain ⟨m, s⟩ := c
    obtain ⟨r1, r2, r3, r4⟩ := logResult_of_success ops content isOpen hWrite hSync lf ho m s
    obtain ⟨st, rs, h1, h2, h3⟩ := ih (logResult ops lf m s).1 r2 r4
    refine ⟨st, none :: rs, ?_, ?_, ?_⟩
    · have hl : Log ops lf m s = .ok ((logResult ops lf m s).1, none) := by
        rw [Log_unlocked ops lf m s hm, ← r1]
      simp only [LogAll, hl, h1]
    · simp [h2, List.replicate_succ]
    · rw [h3, r3]
      simp [linesOf]

/-- C7: on an unlocked `LogFile` whose handle is open and whose writes and syncs
all succeed, each writing in full at the end of the file, every call of a
sequence of `Log` calls returns nil and the file ends up holding its initial
content followed by the formatted lines in call order; two calls with the same
arguments append the line twice. -/
theorem C7_sequential_appends {σ ε : Type} (ops : FileOps σ ε) (content : σ → GoString)
    (isOpen : σ → Prop)
    (hWrite : ∀ x b, isOpen x → (ops.Write x b).2.2 = none ∧
      (b.length : Int) ≤ (ops.Write x b).2.1 ∧
      content (ops.Write x b).1 = content x ++ b ∧ isOpen (ops.Write x b).1)
    (hSync : ∀ x, isOpen x → (ops.Sync x).2 = none ∧
      content (ops.Sync x).1 = content x ∧ isOpen (ops.Sync x).1)
    (lf : LogFile σ) (hm : lf.mutex = false) (ho : isOpen lf.file) :
    (∀ calls : List (GoString × LogSeverityLevel),
      ∃ st rs, LogAll ops lf calls = .ok (st, rs) ∧
        rs = List.replicate calls.length none ∧
        content st.file = content lf.file ++ linesOf calls) ∧
    (∀ (m : GoString) (s : LogSeverityLevel),
      ∃ st, LogAll ops lf [(m, s), (m, s)] = .ok (st, [none, none]) ∧
        content st.file = content lf.file ++ formatMessage m s ++ formatMessage m s) := by
  refine ⟨fun calls => LogAll_of_success ops content isOpen hWrite hSync calls lf hm ho, ?_⟩
  intro m s
  obtain ⟨st, rs, h1, h2, h3⟩ :=
    LogAll_of_success ops content isOpen hWrite hSync [(m, s), (m, s)] lf hm ho
  refine ⟨st, ?_, ?_⟩
  · rw [h1, h2]
    rfl
  · rw [h3]
    simp [linesOf]

theorem simOps_Write_opened (x : SimFile) (b : GoString) (h : x.handle = Handle.opened) :
    (simOps.Write x b).2.2 = none ∧ (b.length : Int) ≤ (simOps.Write x b).2.1 ∧
      (simOps.Write x b).1.content = x.content ++ b ∧
      (simOps.Write x b).1.handle = Handle.opened := by
  simp [simOps, faultOps, h, handleError]

theorem simOps_Sync_opened (x : SimFile) (h : x.handle = Handle.opened) :
    (simOps.Sync x).2 = none ∧ (simOps.Sync x).1.content = x.content ∧
      (simOps.Sync x).1.handle = Handle.opened := by
  simp [simOps, faultOps, h, handleError]

/-- C7 on the concrete file: `OpenLogFile` on a path that does not exist, then
"hello", "oops" as WARNING and "bad" as ERROR; and "hello" logged twice. -/
theorem C7_witness :
    OpenLogFile simOps (newLogFile []) (lit "test.log") = .ok (testLog, none) ∧
    linesOf [(lit "hello", STATUS), (lit "oops", WARNING), (lit "bad", ERROR)]
      = lit "hello\nWARNING: oops\nERROR: bad\n" ∧
    (∃ st rs, LogAll simOps testLog
          [(lit "hello", STATUS), (lit "oops", WARNING), (lit "bad", ERROR)] = .ok (st, rs) ∧
        rs = List.replicate
          [(lit "hello", STATUS), (lit "oops", WARNING), (lit "bad", ERROR)].length none ∧
        st.file.content = testLog.file.content ++
          linesOf [(lit "hello", STATUS), (lit "oops", WARNING), (lit "bad", ERROR)]) ∧
    (∃ st, LogAll simOps testLog [(lit "hello", STATUS), (lit "hello", STATUS)]
          = .ok (st, [none, none]) ∧
        st.file.content = testLog.file.content ++ formatMessage (lit "hello") STATUS ++
          formatMessage (lit "hello") STATUS) :=
  ⟨rfl, by decide,
   (C7_sequential_appends simOps SimFile.content (fun x => x.handle = Handle.opened)
     simOps_Write_opened simOps_Sync_opened testLog rfl rfl).1
       [(lit "hello", STATUS), (lit "oops", WARNING), (lit "bad", ERROR)],
   (C7_sequential_appends simOps SimFile.content (fun x => x.handle = Handle.opened)
     simOps_Write_opened simOps_Sync_opened testLog rfl rfl).2 (lit "hello") STATUS⟩

/-! ## `Log` after `CloseLogFile` -/

theorem logResult_of_closed {σ ε : Type} (ops : FileOps σ ε) (content : σ → GoString)
    (closed : σ → Prop)
    (hWrite : ∀ x b, closed x → (ops.Write x b).2.2 ≠ none ∧
      content (ops.Write x b).1 = content x ∧ closed (ops.Write x b).1)
    (lf : LogFile σ) (hc : closed lf.file) (m : GoString) (s : LogSeverityLevel) :
    (logResult ops lf m s).2 ≠ none ∧ (logResult ops lf m s).1.mutex = false ∧
      content (logResult ops lf m s).1.file = content lf.file ∧
      closed (logResult ops lf m s).1.file ∧
      writesOf (logResult ops lf m s).1.trace = writesOf lf.trace ++ [formatMessage m s] := by
  obtain ⟨w1, w2, w3⟩ := hWrite lf.file (formatMessage m s) hc
  unfold logResult
  cases hw : (ops.Write lf.file (formatMessage m s)).2.2 with
  | none => exact absurd hw w1
  | some e =>
    simp only [hw]
    exact ⟨by simp, trivial, w2, w3, by simp [writesOf_append, writesOf]⟩

theorem LogAll_of_closed {σ ε : Type} (ops : FileOps σ ε) (content : σ → GoString)
    (closed : σ → Prop)
    (hWrite : ∀ x b, closed x → (ops.Write x b).2.2 ≠ none ∧
      content (ops.Write x b).1 = content x ∧ closed (ops.Write x b).1)
    (calls : List (GoString × LogSeverityLevel)) :
    ∀ lf : LogFile σ, lf.mutex = false → closed lf.file →
      ∃ st rs, LogAll ops lf calls = .ok (st, rs) ∧ rs.length = calls.length ∧
        (∀ r ∈ rs, r ≠ none) ∧ content st.file = content lf.file := by
  induction calls with
  | nil =>
    intro lf _ _
    exact ⟨lf, [], rfl, rfl, by simp, rfl⟩
  | cons c rest ih =>
    intro lf hm hc
    obtain ⟨m, s⟩ := c
    obtain ⟨r1, r2, r3, r4, _⟩ := logResult_of_closed ops content closed hWrite lf hc m s
    obtain ⟨st, rs, h1, h2, h3, h4⟩ := ih (logResult ops lf m s).1 r2 r4
    refine ⟨st, (logResult ops lf m s).2 :: rs, ?_, ?_, ?_, ?_⟩
    · simp only [LogAll, Log_unlocked ops lf m s hm, h1]
    · simp [h2]
    · intro r hr
      rcases List.mem_cons.mp hr with h | h
      · rw [h]
        exact r1
      · exact h3 r h
    · rw [h4, r3]

/-- C5: let the closed handles of the `os` package be those on which `Write`
returns an error and leaves the destination as it is, and let a `Close` that
returns nil leave the handle closed.  Then after a `CloseLogFile` that returned
nil on an unlocked `LogFile`, every call of every sequence of `Log` calls returns
(it neither blocks nor faults) a non-nil error and the destination keeps the
content it had when it was closed. -/
theorem C5_Log_after_Close_errors {σ ε : Type} (ops : FileOps σ ε) (content : σ → GoString)
    (closed : σ → Prop)
    (hClose : ∀ x, (ops.Close x).2 = none → closed (ops.Close x).1)
    (hWrite : ∀ x b, closed x → (ops.Write x b).2.2 ≠ none ∧
      content (ops.Write x b).1 = content x ∧ closed (ops.Write x b).1)
    (lf lf1 : LogFile σ) (hm : lf.mutex = false)
    (hc : CloseLogFile ops lf = .ok (lf1, none))
    (calls : List (GoString × LogSeverityLevel)) :
    ∃ st rs, LogAll ops lf1 calls = .ok (st, rs) ∧ rs.length = calls.length ∧
      (∀ r ∈ rs, r ≠ none) ∧ content st.file = content lf1.file := by
  rw [CloseLogFile_unlocked ops lf hm] at hc
  simp only [Except.ok.injEq, Prod.mk.injEq] at hc
  obtain ⟨h1, h2⟩ := hc
  have hnone : (ops.Close lf.file).2 = none := by
    cases h : (ops.Close lf.file).2 with
    | none => rfl
    | some e => simp [h] at h2
  have hcl : closed lf1.file := by
    rw [← h1]
    exact hClose lf.file hnone
  have hmu : lf1.mutex = false := by
    rw [← h1]
  exact LogAll_of_closed ops content closed hWrite calls lf1 hmu hcl

theorem simOps_Close_closed (x : SimFile) (h : (simOps.Close x).2 = none) :
    (simOps.Close x).1.handle = Handle.closed := by
  cases x with
  | mk hd c =>
    cases hd <;> simp_all [simOps, faultOps, handleError]

theorem simOps_Write_closed (x : SimFile) (b : GoString) (h : x.handle = Handle.closed) :
    (simOps.Write x b).2.2 ≠ none ∧ (simOps.Write x b).1.content = x.content ∧
      (simOps.Write x b).1.handle = Handle.closed := by
  simp [simOps, faultOps, h, handleError]

/-- C5 on the concrete file: two calls after a successful close. -/
theorem C5_witness :
    (openedLogFile (lit "hello\n")).mutex = false ∧
    CloseLogFile simOps (openedLogFile (lit "hello\n")) = .ok (closedLog, none) ∧
    ∃ st rs, LogAll simOps closedLog [(lit "late", STATUS), (lit "later", ERROR)]
        = .ok (st, rs) ∧
      rs.length = [(lit "late", STATUS), (lit "later", ERROR)].length ∧
      (∀ r ∈ rs, r ≠ none) ∧ st.file.content = closedLog.file.content :=
  ⟨rfl, rfl,
   C5_Log_after_Close_errors simOps SimFile.content (fun x => x.handle = Handle.closed)
     simOps_Close_closed simOps_Write_closed (openedLogFile (lit "hello\n")) closedLog rfl rfl
     [(lit "late", STATUS), (lit "later", ERROR)]⟩

/-! ## Which operations hold the mutex -/

/-- C8 (as stated, refuted): `OpenLogFile` on a freshly declared `LogFile` stores
the handle into the `file` field without any lock event: its only effect is the
open, and that access is not under the mutex. -/
theorem C8_OpenLogFile_not_under_mutex :
    ∃ st r, OpenLogFile simOps (newLogFile []) (lit "test.log") = .ok (st, r) ∧
      st.file ≠ (newLogFile []).file ∧
      st.trace = (newLogFile []).trace ++ [Event.openFile (lit "test.log")] ∧
      guardedFrom (newLogFile []).mutex [Event.openFile (lit "test.log")] = false :=
  ⟨testLog, none, rfl, by decide, rfl, rfl⟩

/-- C8 (amended): on an unlocked mutex `Log` and `CloseLogFile` access the `file`
field only while holding the mutex; `OpenLogFile` stores into the `file` field
as its only effect, without a lock or unlock, and leaves the mutex as it was. -/
theorem C8_file_access_under_mutex {σ ε : Type} (ops : FileOps σ ε) (lf : LogFile σ)
    (hm : lf.mutex = false) :
    (∀ (m : GoString) (s : LogSeverityLevel),
      ∃ st r evs, Log ops lf m s = .ok (st, r) ∧ st.trace = lf.trace ++ evs ∧
        guardedFrom false evs = true) ∧
    (∃ st r evs, CloseLogFile ops lf = .ok (st, r) ∧ st.trace = lf.trace ++ evs ∧
        guardedFrom false evs = true) ∧
    (∀ filePath : GoString,
      ∃ st r, OpenLogFile ops lf filePath = .ok (st, r) ∧
        st.trace = lf.trace ++ [Event.openFile filePath] ∧ st.mutex = lf.mutex) := by
  refine ⟨?_, ?_, ?_⟩
  · intro m s
    rw [Log_unlocked ops lf m s hm]
    unfold logResult
    simp only []
    split
    · exact ⟨_, _, _, rfl, rfl, rfl⟩
    · split
      · exact ⟨_, _, _, rfl, rfl, rfl⟩
      · exact ⟨_, _, _, rfl, rfl, rfl⟩
  · exact ⟨_, _, _, CloseLogFile_unlocked ops lf hm, rfl, rfl⟩
  · intro filePath
    exact ⟨_, _, rfl, rfl, rfl⟩

/-- C8 (amended) on the concrete file. -/
theorem C8_witness :
    (∃ st r evs, Log simOps testLog (lit "hello") STATUS = .ok (st, r) ∧
        st.trace = testLog.trace ++ evs ∧ guardedFrom false evs = true) ∧
    (∃ st r evs, CloseLogFile simOps testLog = .ok (st, r) ∧ st.trace = testLog.trace ++ evs ∧
        guardedFrom false evs = true) ∧
    (∃ st r, OpenLogFile simOps testLog (lit "other.log") = .ok (st, r) ∧
        st.trace = testLog.trace ++ [Event.openFile (lit "other.log")] ∧
        st.mutex = testLog.mutex) :=
  ⟨(C8_file_access_under_mutex simOps testLog rfl).1 (lit "hello") STATUS,
   (C8_file_access_under_mutex simOps testLog rfl).2.1,
   (C8_file_access_under_mutex simOps testLog rfl).2.2 (lit "other.log")⟩

/-! ## Concurrent callers: invariant and its consequences -/

theorem linesAt_append (calls : List (GoString × LogSeverityLevel)) (a b : List Nat) :
    linesAt calls (a ++ b) = linesAt calls a ++ linesAt calls b := by
  induction a with
  | nil => rfl
  | cons i t ih => simp [linesAt, ih]

theorem Inv_initSys (calls : List (GoString × LogSeverityLevel)) (c : GoString) :
    Inv calls c (initSys c) := by
  refine ⟨rfl, [], List.nodup_nil, ?_, Or.inl ⟨rfl, fun _ _ => rfl, ?_⟩⟩
  · intro j
    simp [initSys, Pc.wrote]
  · simp [initSys, linesAt]

theorem mem_update_of_wrote_eq {n : Nat} {pc : Nat → Pc} {ord : List Nat} {i : Nat} {p : Pc}
    (hmem : ∀ j, j ∈ ord ↔ j < n ∧ (pc j).wrote = true) (hp : p.wrote = (pc i).wrote) :
    ∀ j, j ∈ ord ↔ j < n ∧ (Function.update pc i p j).wrote = true := by
  intro j
  by_cases hj : j = i
  · subst hj
    rw [Function.update_same, hp]
    exact hmem j
  · rw [Function.update_noteq hj]
    exact hmem j

theorem outside_update_others {n : Nat} {pc : Nat → Pc} {i : Nat} {p : Pc}
    (h : ∀ j, j < n → j ≠ i → (pc j).outside = true) :
    ∀ j, j < n → j ≠ i → (Function.update pc i p j).outside = true := by
  intro j hj hne
  rw [Function.update_noteq hne]
  exact h j hj hne

/-- The caller that is inside, when some caller is not outside. -/
theorem holder_of_not_outside {calls : List (GoString × LogSeverityLevel)} {c : GoString}
    {g : Sys} {ord : List Nat} {i : Nat} (hi : i < calls.length)
    (hout : (g.pc i).outside = false)
    (hcase : (g.mutex = false ∧ (∀ j, j < calls.length → (g.pc j).outside = true) ∧
        g.file.content = c ++ linesAt calls ord) ∨
     (g.mutex = true ∧ ∃ i, i < calls.length ∧
        (∀ j, j < calls.length → j ≠ i → (g.pc j).outside = true) ∧
        ((∃ k, g.pc i = Pc.inWrite k ∧ k ≤ (lineAt calls i).length ∧
            g.file.content = c ++ linesAt calls ord ++ (lineAt calls i).take k) ∨
         ((g.pc i = Pc.atSync ∨ g.pc i = Pc.atUnlock none) ∧
            g.file.content = c ++ linesAt calls ord)))) :
    g.mutex = true ∧ (∀ j, j < calls.length → j ≠ i → (g.pc j).outside = true) ∧
      ((∃ k, g.pc i = Pc.inWrite k ∧ k ≤ (lineAt calls i).length ∧
          g.file.content = c ++ linesAt calls ord ++ (lineAt calls i).take k) ∨
       ((g.pc i = Pc.atSync ∨ g.pc i = Pc.atUnlock none) ∧
          g.file.content = c ++ linesAt calls ord)) := by
  rcases hcase with ⟨_, hall, _⟩ | ⟨hmu, i0, hi0, hoth, hrest⟩
  · rw [hall i hi] at hout
    cases hout
  · by_cases hii : i = i0
    · subst hii
      exact ⟨hmu, hoth, hrest⟩
    · rw [hoth i hi hii] at hout
      cases hout

theorem Inv_step (calls : List (GoString × LogSeverityLevel)) (c : GoString) (g g1 : Sys)
    (i : Nat) (hinv : Inv calls c g) (hs : step calls i g = some g1) : Inv calls c g1 := by
  obtain ⟨hopen, ord, hnd, hmem, hcase⟩ := hinv
  unfold step at hs
  by_cases hi : i < calls.length
  swap
  · simp [hi] at hs
  simp only [hi, if_true] at hs
  cases hpc : g.pc i with
  | atLock =>
    rw [hpc] at hs
    simp only [stepLog] at hs
    cases hmu : g.mutex with
    | true => simp [hmu] at hs
    | false =>
      simp only [hmu, Bool.false_eq_true, if_false, Option.some.injEq] at hs
      subst hs
      rcases hcase with ⟨_, hall, hcont⟩ | ⟨hmu1, _⟩
      swap
      · rw [hmu] at hmu1
        cases hmu1
      refine ⟨hopen, ord, hnd, mem_update_of_wrote_eq hmem (by rw [hpc]; rfl), Or.inr ⟨rfl, i, hi,
        outside_update_others (fun j hj _ => hall j hj), Or.inl ⟨0, ?_, Nat.zero_le _, ?_⟩⟩⟩
      · simp
      · simp [hcont]
  | inWrite k =>
    obtain ⟨hmu, hoth, hrest⟩ := holder_of_not_outside hi (by rw [hpc]; rfl) hcase
    rcases hrest with ⟨k1, hk1, hle, hcont⟩ | ⟨hbad, _⟩
    swap
    · rw [hpc] at hbad
      rcases hbad with hbad | hbad <;> cases hbad
    rw [hpc] at hk1
    cases hk1
    rw [hpc] at hs
    simp only [stepLog, hopen, handleError] at hs
    cases hb : (lineAt calls i)[k]? with
    | some b =>
      simp only [hb, Option.some.injEq] at hs
      subst hs
      have hlt : k < (lineAt calls i).length := (List.getElem?_eq_some_iff.mp hb).1
      refine ⟨rfl, ord, hnd, mem_update_of_wrote_eq hmem (by rw [hpc]; rfl), Or.inr ⟨hmu, i, hi,
        outside_update_others hoth, Or.inl ⟨k + 1, ?_, hlt, ?_⟩⟩⟩
      · simp
      · simp only [hcont, List.take_succ, hb, Option.toList, List.append_assoc]
    | none =>
      have hge : (lineAt calls i).length ≤ k := List.getElem?_eq_none_iff.mp hb
      have hnlt : ¬ ((k : Int) < ((lineAt calls i).length : Int)) := by
        simp only [Nat.cast_lt, not_lt]
        exact hge
      simp only [hb, hnlt, if_false, Option.some.injEq] at hs
      subst hs
      have hnot : i ∉ ord := by
        intro hin
        have := ((hmem i).mp hin).2
        rw [hpc] at this
        cases this
      refine ⟨hopen, ord ++ [i], ?_, ?_, Or.inr ⟨hmu, i, hi, outside_update_others hoth,
        Or.inr ⟨Or.inl (by simp), ?_⟩⟩⟩
      · exact List.Nodup.append hnd (List.nodup_singleton i) (by simpa using hnot)
      · intro j
        by_cases hj : j = i
        · subst hj
          simp [hi, Pc.wrote]
        · simp [Function.update_noteq hj, hj, hmem j]
      · simp only [hcont, linesAt_append, linesAt, List.append_nil, List.append_assoc]
        rw [List.take_of_length_le hge]
  | atSync =>
    obtain ⟨hmu, hoth, hrest⟩ := holder_of_not_outside hi (by rw [hpc]; rfl) hcase
    rcases hrest with ⟨k1, hk1, _, _⟩ | ⟨_, hcont⟩
    · rw [hpc] at hk1
      cases hk1
    rw [hpc] at hs
    simp only [stepLog, simOps, faultOps, hopen, handleError, Option.map_none',
      Option.some.injEq] at hs
    subst hs
    refine ⟨hopen, ord, hnd, mem_update_of_wrote_eq hmem (by rw [hpc]; rfl), Or.inr ⟨hmu, i, hi,
      outside_update_others hoth, Or.inr ⟨Or.inr (by simp), hcont⟩⟩⟩
  | atUnlock r =>
    obtain ⟨hmu, hoth, hrest⟩ := holder_of_not_outside hi
      (by rw [hpc]; cases r <;> rfl) hcase
    rcases hrest with ⟨k1, hk1, _, _⟩ | ⟨hr, hcont⟩
    · rw [hpc] at hk1
      cases hk1
    rw [hpc] at hr
    have hrn : r = none := by
      rcases hr with hr | hr
      · cases hr
      · cases hr
        rfl
    subst hrn
    rw [hpc] at hs
    simp only [stepLog, hmu, if_true, Option.some.injEq] at hs
    subst hs
    refine ⟨hopen, ord, hnd, mem_update_of_wrote_eq hmem (by rw [hpc]; rfl), Or.inl ⟨rfl, ?_, hcont⟩⟩
    intro j hj
    by_cases hji : j = i
    · subst hji
      simp [Pc.outside]
    · exact outside_update_others hoth j hj hji
  | returned r =>
    rw [hpc] at hs
    simp [stepLog] at hs
  | fatal =>
    rw [hpc] at hs
    simp [stepLog] at hs

theorem Inv_run (calls : List (GoString × LogSeverityLevel)) (c : GoString) (sched : List Nat) :
    ∀ g : Sys, Inv calls c g → Inv calls c (run calls sched g) := by
  induction sched with
  | nil => exact fun g h => h
  | cons i rest ih =>
    intro g h
    simp only [run]
    apply ih
    cases hs : step calls i g with
    | none => exact h
    | some g1 => exact Inv_step calls c g g1 i h hs

theorem allReturned_iff (calls : List (GoString × LogSeverityLevel)) (g : Sys) :
    allReturned calls g = true ↔ ∀ i, i < calls.length → (g.pc i).isReturned = true := by
  simp [allReturned, List.all_eq_true, List.mem_range]

theorem Inv_final (calls : List (GoString × LogSeverityLevel)) (c : GoString) (g : Sys)
    (hinv : Inv calls c g) (hall : allReturned calls g = true) :
    (∀ i, i < calls.length → g.pc i = Pc.returned none) ∧
    ∃ ord : List Nat, ord.Perm (List.range calls.length) ∧
      g.file.content = c ++ linesAt calls ord := by
  rw [allReturned_iff] at hall
  obtain ⟨_, ord, hnd, hmem, hcase⟩ := hinv
  rcases hcase with ⟨_, hout, hcont⟩ | ⟨_, i, hi, _, hrest⟩
  · have hret : ∀ i, i < calls.length → g.pc i = Pc.returned none := by
      intro i hi
      have h1 := hall i hi
      have h2 := hout i hi
      cases hpc : g.pc i with
      | returned r =>
        cases r with
        | none => rfl
        | some e =>
          rw [hpc] at h2
          cases h2
      | atLock => rw [hpc] at h1; cases h1
      | inWrite k => rw [hpc] at h1; cases h1
      | atSync => rw [hpc] at h1; cases h1
      | atUnlock r => rw [hpc] at h1; cases h1
      | fatal => rw [hpc] at h1; cases h1
    refine ⟨hret, ord, ?_, hcont⟩
    rw [List.perm_ext_iff_of_nodup hnd (List.nodup_range _)]
    intro j
    rw [hmem j, List.mem_range]
    constructor
    · exact fun h => h.1
    · intro hj
      refine ⟨hj, ?_⟩
      rw [hret j hj]
      rfl
  · have h1 := hall i hi
    rcases hrest with ⟨k, hk, _, _⟩ | ⟨hk | hk, _⟩ <;>
    · rw [hk] at h1
      cases h1

theorem filterMap_range_getElem? {α : Type} (l : List α) :
    (List.range l.length).filterMap (fun i => l[i]?) = l := by
  induction l with
  | nil => rfl
  | cons a t ih =>
    rw [List.length_cons, List.range_succ_eq_map, List.filterMap_cons]
    simp only [List.getElem?_cons_zero, List.filterMap_map]
    have hf : ((fun i => (a :: t)[i]?) ∘ Nat.succ) = fun i => t[i]? := by
      funext i
      simp
    rw [hf, ih]

theorem linesAt_eq_linesOf (calls : List (GoString × LogSeverityLevel)) (ord : List Nat) :
    linesAt calls ord = linesOf (ord.filterMap (fun i => calls[i]?)) := by
  induction ord with
  | nil => rfl
  | cons i t ih =>
    rw [List.filterMap_cons]
    cases h : calls[i]? with
    | none => simp [linesAt, lineAt, h, ih]
    | some ms =>
      obtain ⟨m, s⟩ := ms
      simp [linesAt, lineAt, h, ih, linesOf]

/-! ### Every schedule can be completed -/

theorem stepLog_remaining (message : GoString) (file file1 : SimFile) (mutex mutex1 : Bool)
    (p p1 : Pc) (h : stepLog message file mutex p = some (file1, mutex1, p1)) :
    p1.remaining message.length < p.remaining message.length := by
  cases p with
  | atLock =>
    cases mutex <;> simp [stepLog] at h
    obtain ⟨_, _, h3⟩ := h
    subst h3
    simp [Pc.remaining]
  | inWrite k =>
    simp only [stepLog] at h
    split at h
    · simp only [Option.some.injEq, Prod.mk.injEq] at h
      obtain ⟨_, _, h3⟩ := h
      subst h3
      simp [Pc.remaining]
    · split at h
      · rename_i b hb
        have hlt : k < message.length := (List.getElem?_eq_some_iff.mp hb).1
        simp only [Option.some.injEq, Prod.mk.injEq] at h
        obtain ⟨_, _, h3⟩ := h
        subst h3
        simp only [Pc.remaining]
        omega
      · split at h <;>
        · simp only [Option.some.injEq, Prod.mk.injEq] at h
          obtain ⟨_, _, h3⟩ := h
          subst h3
          simp [Pc.remaining]
  | atSync =>
    simp only [stepLog, Option.some.injEq, Prod.mk.injEq] at h
    obtain ⟨_, _, h3⟩ := h
    subst h3
    simp [Pc.remaining]
  | atUnlock r =>
    cases mutex <;> simp [stepLog] at h <;>
    · obtain ⟨_, _, h3⟩ := h
      subst h3
      simp [Pc.remaining]
  | returned r => simp [stepLog] at h
  | fatal => simp [stepLog] at h

theorem step_remaining (calls : List (GoString × LogSeverityLevel)) (g g1 : Sys) (i : Nat)
    (hs : step calls i g = some g1) : remaining calls g1 < remaining calls g := by
  unfold step at hs
  by_cases hi : i < calls.length
  swap
  · simp [hi] at hs
  simp only [hi, if_true] at hs
  cases hst : stepLog (lineAt calls i) g.file g.mutex (g.pc i) with
  | none => simp [hst] at hs
  | some r =>
    obtain ⟨f, mu, p⟩ := r
    simp only [hst, Option.some.injEq] at hs
    subst hs
    have hlt := stepLog_remaining _ _ _ _ _ _ _ hst
    unfold remaining
    apply Finset.sum_lt_sum
    · intro j _
      by_cases hj : j = i
      · subst hj
        simp only [Function.update_same]
        exact Nat.le_of_lt hlt
      · simp only [Function.update_noteq hj]
        exact Nat.le_refl _
    · exact ⟨i, Finset.mem_range.mpr hi, by simpa using hlt⟩

/-- No reachable state is stuck: while some call has not returned, some caller
can move. -/
theorem Inv_enabled (calls : List (GoString × LogSeverityLevel)) (c : GoString) (g : Sys)
    (hinv : Inv calls c g) (hall : allReturned calls g = false) :
    ∃ i g1, step calls i g = some g1 := by
  have hex : ∃ i, i < calls.length ∧ (g.pc i).isReturned = false := by
    by_contra hcon
    have : allReturned calls g = true := by
      rw [allReturned_iff]
      intro i hi
      by_contra hne
      exact hcon ⟨i, hi, by simpa using hne⟩
    rw [this] at hall
    cases hall
  obtain ⟨hopen, ord, _, _, hcase⟩ := hinv
  rcases hcase with ⟨hmu, hout, _⟩ | ⟨hmu, i, hi, _, hrest⟩
  · obtain ⟨i, hi, hnr⟩ := hex
    have h2 := hout i hi
    refine ⟨i, ?_⟩
    cases hpc : g.pc i with
    | atLock => simp [step, hi, hpc, stepLog, hmu]
    | returned r => rw [hpc] at hnr; cases hnr
    | inWrite k => rw [hpc] at h2; cases h2
    | atSync => rw [hpc] at h2; cases h2
    | atUnlock r => rw [hpc] at h2; cases h2
    | fatal => rw [hpc] at h2; cases h2
  · refine ⟨i, ?_⟩
    rcases hrest with ⟨k, hk, _, _⟩ | ⟨hk | hk, _⟩
    · cases hb : (lineAt calls i)[k]? with
      | some b => simp [step, hi, hk, stepLog, hopen, handleError, hb]
      | none =>
        by_cases hlt : (k : Int) < ((lineAt calls i).length : Int)
        · simp [step, hi, hk, stepLog, hopen, handleError, hb, hlt]
        · simp [step, hi, hk, stepLog, hopen, handleError, hb, hlt]
    · simp [step, hi, hk, stepLog]
    · simp [step, hi, hk, stepLog, hmu]

theorem Inv_completes (calls : List (GoString × LogSeverityLevel)) (c : GoString) (n : Nat) :
    ∀ g : Sys, Inv calls c g → remaining calls g ≤ n →
      ∃ more, allReturned calls (run calls more g) = true := by
  induction n with
  | zero =>
    intro g hinv hn
    cases hall : allReturned calls g with
    | true => exact ⟨[], hall⟩
    | false =>
      obtain ⟨i, g1, hs⟩ := Inv_enabled calls c g hinv hall
      have := step_remaining calls g g1 i hs
      omega
  | succ n ih =>
    intro g hinv hn
    cases hall : allReturned calls g with
    | true => exact ⟨[], hall⟩
    | false =>
      obtain ⟨i, g1, hs⟩ := Inv_enabled calls c g hinv hall
      have hlt := step_remaining calls g g1 i hs
      obtain ⟨more, hm⟩ := ih g1 (Inv_step calls c g g1 i hinv hs) (by omega)
      refine ⟨i :: more, ?_⟩
      simp only [run, hs, Option.getD_some]
      exact hm

theorem run_append (calls : List (GoString × LogSeverityLevel)) (a b : List Nat) :
    ∀ g : Sys, run calls (a ++ b) g = run calls b (run calls a g) := by
  induction a with
  | nil => exact fun g => rfl
  | cons i t ih =>
    intro g
    simp only [List.cons_append, run]
    exact ih _

/-- The byte-by-byte `Write` is not atomic by itself: two callers placed inside
`Write` together, which the mutex rules out, mix the bytes of their lines. -/
theorem unguarded_writes_interleave :
    (run [(lit "a", STATUS), (lit "b", STATUS)] [0, 1, 0, 1]
      { file := { handle := Handle.opened, content := [] }, mutex := true,
        pc := fun _ => Pc.inWrite 0 }).file.content = [97, 98, 10, 10] := by
  decide

/-- With a single caller the concurrent system agrees with `Log` on the file on
which nothing fails: under every schedule, once the call has returned it has
returned what `Log` returns and the file is the one `Log` leaves. -/
theorem solo_agrees_with_Log (m : GoString) (s : LogSeverityLevel) (c : GoString)
    (sched : List Nat)
    (hall : allReturned [(m, s)] (run [(m, s)] sched (initSys c)) = true) :
    ∃ st r, Log simOps (openedLogFile c) m s = .ok (st, r) ∧
      (run [(m, s)] sched (initSys c)).pc 0 = Pc.returned r ∧
      (run [(m, s)] sched (initSys c)).file = st.file ∧
      (run [(m, s)] sched (initSys c)).mutex = st.mutex := by
  have hinv := Inv_run [(m, s)] c sched (initSys c) (Inv_initSys [(m, s)] c)
  obtain ⟨hret, ord, hperm, hcont⟩ := Inv_final [(m, s)] c _ hinv hall
  have hord : ord = [0] := by
    have h0 : ord.Perm [0] := hperm
    exact List.perm_singleton.mp h0
  subst hord
  obtain ⟨hopen, _, _, _, hcase⟩ := hinv
  have hmu : (run [(m, s)] sched (initSys c)).mutex = false := by
    rcases hcase with ⟨h, _, _⟩ | ⟨_, i, hi, _, hrest⟩
    · exact h
    · have hi0 : i = 0 := by simpa using hi
      subst hi0
      have h0 := hret 0 (by simp)
      rcases hrest with ⟨k, hk, _, _⟩ | ⟨hk | hk, _⟩ <;>
      · rw [h0] at hk
        cases hk
  refine ⟨(logResult simOps (openedLogFile c) m s).1, (logResult simOps (openedLogFile c) m s).2,
    Log_unlocked simOps (openedLogFile c) m s rfl, ?_, ?_, ?_⟩
  · rw [hret 0 (by simp)]
    simp [logResult, simOps, faultOps, handleError, openedLogFile]
  · cases hf : (run [(m, s)] sched (initSys c)).file with
    | mk hd ct =>
      rw [hf] at hopen hcont
      simp only at hopen hcont
      subst hopen
      subst hcont
      simp [logResult, simOps, faultOps, handleError, openedLogFile, linesAt, lineAt]
  · rw [hmu]
    simp [logResult, simOps, faultOps, handleError, openedLogFile]

/-- C9: callers of `Log` run concurrently on one open `LogFile` whose writes go
to the file byte by byte and never fail.  Under every schedule, once all calls
have returned each has returned nil and the file holds its initial content
followed by the complete formatted lines of the calls in some order, each call
exactly once; and every schedule can be continued until all calls have
returned. -/
theorem C9_concurrent_lines_intact (calls : List (GoString × LogSeverityLevel)) (c : GoString)
    (sched : List Nat) :
    (allReturned calls (run calls sched (initSys c)) = true →
      (∀ i, i < calls.length → (run calls sched (initSys c)).pc i = Pc.returned none) ∧
      ∃ p : List (GoString × LogSeverityLevel), p.Perm calls ∧
        (run calls sched (initSys c)).file.content = c ++ linesOf p) ∧
    (∃ more, allReturned calls (run calls (sched ++ more) (initSys c)) = true) := by
  have hinv := Inv_run calls c sched (initSys c) (Inv_initSys calls c)
  constructor
  · intro hall
    obtain ⟨hret, ord, hperm, hcont⟩ := Inv_final calls c _ hinv hall
    refine ⟨hret, ord.filterMap (fun i => calls[i]?), ?_, ?_⟩
    · have := List.Perm.filterMap (fun i => calls[i]?) hperm
      rwa [filterMap_range_getElem?] at this
    · rw [hcont, linesAt_eq_linesOf]
  · obtain ⟨more, hm⟩ := Inv_completes calls c _ _ hinv (Nat.le_refl _)
    exact ⟨more, by rw [run_append]; exact hm⟩

/-- C9 for two callers under two schedules, one for each order in which the
callers obtain the mutex. -/
theorem C9_witness :
    allReturned [(lit "a", STATUS), (lit "b", WARNING)]
      (run [(lit "a", STATUS), (lit "b", WARNING)]
        [1, 0, 1, 0, 1, 1, 0, 1, 1, 0, 1, 1, 1, 0, 1, 1, 1, 1, 1, 1, 0, 0, 0, 0, 0, 0]
        (initSys [])) = true ∧
    (run [(lit "a", STATUS), (lit "b", WARNING)]
        [1, 0, 1, 0, 1, 1, 0, 1, 1, 0, 1, 1, 1, 0, 1, 1, 1, 1, 1, 1, 0, 0, 0, 0, 0, 0]
        (initSys [])).file.content = lit "WARNING: b\na\n" ∧
    (run [(lit "a", STATUS), (lit "b", WARNING)]
        [0, 1, 0, 1, 0, 0, 1, 0, 1, 0, 1, 1, 1, 1, 1, 1, 1, 1, 1, 1, 1, 1, 1, 1, 1, 1]
        (initSys [])).file.content = lit "a\nWARNING: b\n" ∧
    ((∀ i, i < [(lit "a", STATUS), (lit "b", WARNING)].length →
        (run [(lit "a", STATUS), (lit "b", WARNING)]
          [1, 0, 1, 0, 1, 1, 0, 1, 1, 0, 1, 1, 1, 0, 1, 1, 1, 1, 1, 1, 0, 0, 0, 0, 0, 0]
          (initSys [])).pc i = Pc.returned none) ∧
      ∃ p : List (GoString × LogSeverityLevel),
        p.Perm [(lit "a", STATUS), (lit "b", WARNING)] ∧
        (run [(lit "a", STATUS), (lit "b", WARNING)]
          [1, 0, 1, 0, 1, 1, 0, 1, 1, 0, 1, 1, 1, 0, 1, 1, 1, 1, 1, 1, 0, 0, 0, 0, 0, 0]
          (initSys [])).file.content = [] ++ linesOf p) :=
  ⟨by decide, by decide, by decide,
   (C9_concurrent_lines_intact [(lit "a", STATUS), (lit "b", WARNING)] []
      [1, 0, 1, 0, 1, 1, 0, 1, 1, 0, 1, 1, 1, 0, 1, 1, 1, 1, 1, 1, 0, 0, 0, 0, 0, 0]).1
      (by decide)⟩

end filelogging
